import Mathlib

/-!
# vhg-pub, `src/cpp/hello_world`: the `Car` class and the `hello` entry point

Shallow embedding of `lib/car.h`, `lib/car.cc` and `hello.cc`.

* Text (`std::string`, `std::string_view`, string literals) is `String`.
* Standard output is the text written to it so far; `std::cout << x` appends
  `x` to it (the stream is in its default formatting state, as everywhere in
  this program, which never changes it).
* A member function of `Car` is a state transformer on the object it is
  called on (`self`, the C++ `this`) and on standard output: it returns its
  result, the object after the call and standard output after the call.
* `hello.cc` holds its `Car` through `std::unique_ptr`, so that file is
  embedded over a heap of `Car` objects; dereferencing a null or dangling
  pointer and deleting an object twice (undefined behaviour in C++) are the
  failure `none`.
* The pointer variables of `hello.cc` (the local `c` of `main`, the parameter
  `c` of `print_name`) are part of the state `Machine`, and `main` is the
  composition of one step per source line, so that who owns the `Car` at each
  program point can be read off the run.
-/

set_option linter.dupNamespace false
set_option linter.unusedVariables false

namespace vls

/-- Standard output: everything written to `std::cout` so far. -/
abbrev Stdout := String

/-- The class `Car` of `lib/car.h`: its only data member is the private
`std::string name`; the class has no static member. -/
structure Car where
  name : String
deriving DecidableEq, Repr

/-- Constructor `Car::Car(std::string n) : name{n} {}`: copies `n` into `name`; the body is empty. -/
def Car.Car (n : String) (out : Stdout) : vls.Car × Stdout :=
  ({ name := n }, out)

/-- Member function `void Car::drive() { std::cout << "vroooom\n"; }`: writes the
literal and leaves the object alone. -/
def Car.drive (self : vls.Car) (out : Stdout) : Unit × vls.Car × Stdout :=
  ((), self, out ++ "vroooom\n")

/-- Member function `std::string_view Car::get_name() { return name; }`: the view spans the
whole of `name`; it is represented by the text it shows. -/
def Car.get_name (self : vls.Car) (out : Stdout) : String × vls.Car × Stdout :=
  (self.name, self, out)

end vls

/-! ## `std::unique_ptr<vls::Car>` over a heap -/

/-- The program state of `hello.cc`: the `Car` objects allocated so far (the
address of an object is its index; a destroyed object leaves `none`, an address
is never handed out twice) and standard output. -/
structure World where
  heap : List (Option vls.Car)
  out : vls.Stdout
deriving DecidableEq, Repr

/-- The state at program start: nothing allocated, nothing written. -/
def World.start : World := { heap := [], out := "" }

/-- A `std::unique_ptr<vls::Car>`: null, or the address of the object it owns. -/
abbrev unique_ptr := Option Nat

/-- The object `p` points to: `none` when `p` is null or the object has been destroyed. -/
def unique_ptr.deref (p : unique_ptr) (w : World) : Option vls.Car :=
  match p with
  | none => none
  | some a => w.heap[a]?.join

/-- The call `p->m()`: runs the member function `m` on the object `p` points to, against
the current standard output, and stores the object back. Calling through a null
or dangling pointer fails. -/
def unique_ptr.call {α : Type} (p : unique_ptr)
    (m : vls.Car → vls.Stdout → α × vls.Car × vls.Stdout) (w : World) : Option (α × World) :=
  match p, p.deref w with
  | some a, some car =>
    let (r, car1, out1) := m car w.out
    some (r, { heap := w.heap.set a (some car1), out := out1 })
  | _, _ => none

/-- The insertion `std::cout << s` in `hello.cc`. -/
def cout (s : String) (w : World) : World :=
  { w with out := w.out ++ s }

/-- The call `std::make_unique<vls::Car>(n)`: allocates a new object, runs the
constructor `Car::Car(n)` on it and returns the pointer that owns it. -/
def make_unique (n : String) (w : World) : unique_ptr × World :=
  let (car, out) := vls.Car.Car n w.out
  (some w.heap.length, { heap := w.heap ++ [some car], out := out })

/-- The expression `std::move(p)` used to initialise another `unique_ptr` (the move
constructor): the new pointer takes over what `p` owned and `p` is left null.
Returns (the new pointer, `p` after the move). -/
def unique_ptr.move (p : unique_ptr) : unique_ptr × unique_ptr :=
  (p, none)

/-- Destructor `~unique_ptr()`: deletes the owned object, if any; a null pointer
deletes nothing. Deleting an object that is not alive (a double delete) fails. -/
def unique_ptr.destroy (p : unique_ptr) (w : World) : Option World :=
  match p, p.deref w with
  | none, _ => some w
  | some a, some _ => some { w with heap := w.heap.set a none }
  | some _, none => none

/-- The pointer variables of `hello.cc` with the program state: the local `c`
of `main` and the parameter `c` of `print_name`, each `none` while it is not in
scope, `some none` while it holds the null pointer. -/
structure Machine where
  main_c : Option unique_ptr
  print_name_c : Option unique_ptr
  world : World
deriving DecidableEq, Repr

/-- The machine on entry to `main`: no pointer variable is in scope yet. -/
def Machine.entry (w : World) : Machine :=
  { main_c := none, print_name_c := none, world := w }

namespace hello

/-- The body of `print_name`, line 11: `std::cout << c->get_name() << "\n";`. -/
def print_name_body (c : unique_ptr) (w : World) : Option World :=
  match c.call vls.Car.get_name w with
  | none => none
  | some (name, w1) =>
    let w2 := cout name w1
    let w3 := cout "\n" w2
    some w3

/-- Function `void print_name(std::unique_ptr<vls::Car> c) { std::cout << c->get_name() << "\n"; }`.
The parameter `c` is owned by the call: it is destroyed, with the `Car` it
owns, when the function's scope ends. -/
def print_name (c : unique_ptr) (w : World) : Option World :=
  match print_name_body c w with
  | none => none
  | some w1 => c.destroy w1

/-- Line 16 of `main`: `auto c = std::make_unique<vls::Car>("Honda");`. -/
def main_line16 (m : Machine) : Option Machine :=
  let (c, w1) := make_unique "Honda" m.world
  some { m with main_c := some c, world := w1 }

/-- Line 18 of `main`, the argument `std::move(c)`: the parameter of
`print_name` is move-constructed from `main`'s `c`. -/
def main_line18_move (m : Machine) : Option Machine :=
  match m.main_c with
  | none => none
  | some c =>
    let (arg, c1) := c.move
    some { m with main_c := some c1, print_name_c := some arg }

/-- Line 18 of `main`, the call `print_name(...)`: runs `print_name` on its
parameter, which goes out of scope when the call returns. -/
def main_line18_call (m : Machine) : Option Machine :=
  match m.print_name_c with
  | none => none
  | some c =>
    match print_name c m.world with
    | none => none
    | some w1 => some { m with print_name_c := none, world := w1 }

/-- Line 20 of `main`: `return 0;`, on which the local `c` is destroyed and goes
out of scope. Returns the exit code and the machine after it. -/
def main_line20 (m : Machine) : Option (Int × Machine) :=
  match m.main_c with
  | none => none
  | some c =>
    match c.destroy m.world with
    | none => none
    | some w1 => some (0, { m with main_c := none, world := w1 })

/-- Entry point `int main(int argc, char* argv[])`:
`auto c = std::make_unique<vls::Car>("Honda"); print_name(std::move(c)); return 0;`
Returns the exit code and the final state. -/
def main (argc : Int) (argv : List String) (w : World) : Option (Int × World) :=
  (main_line16 (Machine.entry w)).bind fun m1 =>
  (main_line18_move m1).bind fun m2 =>
  (main_line18_call m2).bind fun m3 =>
  (main_line20 m3).map fun r => (r.1, r.2.world)

end hello

/-! ## Drivers: sequences of calls to the public member functions -/

/-- The public member functions of `Car` that can be called on an existing object. -/
inductive Method where
  | drive
  | get_name
deriving DecidableEq, Repr

/-- One call of a public member function on an object; the result of the call is dropped. -/
def Method.invoke (m : Method) (self : vls.Car) (out : vls.Stdout) : vls.Car × vls.Stdout :=
  match m with
  | .drive => (vls.Car.drive self out).2
  | .get_name => (vls.Car.get_name self out).2

/-- A finite sequence of calls on one object, in order. -/
def Method.invokeAll (ms : List Method) (self : vls.Car) (out : vls.Stdout) :
    vls.Car × vls.Stdout :=
  match ms with
  | [] => (self, out)
  | m :: rest =>
    let (self1, out1) := m.invoke self out
    Method.invokeAll rest self1 out1

/-- One call `p->m()` through a pointer; the result of the call is dropped. -/
def Method.invokeAt (m : Method) (p : unique_ptr) (w : World) : Option World :=
  match m with
  | .drive => (p.call vls.Car.drive w).map (fun r => r.2)
  | .get_name => (p.call vls.Car.get_name w).map (fun r => r.2)

/-- A finite sequence of calls on two objects: each call names the object it is
made on (`true`: through `p`, `false`: through `q`). -/
def Method.invokeTwo (calls : List (Bool × Method)) (p q : unique_ptr) (w : World) :
    Option World :=
  match calls with
  | [] => some w
  | (onFirst, m) :: rest =>
    match m.invokeAt (if onFirst then p else q) w with
    | none => none
    | some w1 => Method.invokeTwo rest p q w1

/-- Calling `get_name` `k` times in a row on one object. -/
def get_name_times (k : Nat) (self : vls.Car) (out : vls.Stdout) : vls.Car × vls.Stdout :=
  match k with
  | 0 => (self, out)
  | k + 1 =>
    let (_, self1, out1) := vls.Car.get_name self out
    get_name_times k self1 out1

/-- The text `pat` occurs somewhere in the text `s`. -/
def occursIn (pat s : String) : Prop :=
  pat.toList <:+: s.toList

instance (pat s : String) : Decidable (occursIn pat s) := by
  unfold occursIn
  infer_instance

/-! ## Lemmas on the heap -/

theorem heap_get_two (h : List (Option vls.Car)) (x y : Option vls.Car) :
    (h ++ [x, y])[h.length]? = some x ∧ (h ++ [x, y])[h.length + 1]? = some y := by
  induction h with
  | nil => simp
  | cons c h ih => simpa using ih

theorem make_unique_out (n : String) (w : World) : (make_unique n w).2.out = w.out := by
  simp [make_unique, vls.Car.Car]

theorem print_name_body_live (a : Nat) (car : vls.Car) (w : World)
    (ha : w.heap[a]? = some (some car)) :
    hello.print_name_body (some a) w
      = some { heap := w.heap.set a (some car), out := w.out ++ car.name ++ "\n" } := by
  simp [hello.print_name_body, unique_ptr.call, unique_ptr.deref, ha, vls.Car.get_name, cout]

theorem print_name_live (a : Nat) (car : vls.Car) (w : World)
    (ha : w.heap[a]? = some (some car)) :
    hello.print_name (some a) w
      = some { heap := w.heap.set a none, out := w.out ++ car.name ++ "\n" } := by
  have hlt : a < w.heap.length := by
    rcases Nat.lt_or_ge a w.heap.length with h | h
    · exact h
    · rw [List.getElem?_eq_none h] at ha
      cases ha
  simp [hello.print_name, print_name_body_live a car w ha, unique_ptr.destroy,
    unique_ptr.deref, hlt]

theorem make_unique_eq (n : String) (w : World) :
    make_unique n w
      = (some w.heap.length, { heap := w.heap ++ [some { name := n }], out := w.out }) := by
  rfl

theorem print_name_make_unique (n : String) (w : World) :
    hello.print_name (make_unique n w).1 (make_unique n w).2
      = some { heap := w.heap ++ [none], out := w.out ++ n ++ "\n" } := by
  rw [make_unique_eq]
  rw [print_name_live w.heap.length { name := n } _ (by simp)]
  simp

theorem main_eq (argc : Int) (argv : List String) (w : World) :
    hello.main argc argv w = some (0, { heap := w.heap ++ [none], out := w.out ++ "Honda" ++ "\n" }) := by
  have h := print_name_make_unique "Honda" w
  rw [make_unique_eq] at h
  simp [hello.main, hello.main_line16, hello.main_line18_move, hello.main_line18_call,
    hello.main_line20, Machine.entry, make_unique_eq, unique_ptr.move, h, unique_ptr.destroy]

theorem invokeAll_fst (ms : List Method) (self : vls.Car) (out : vls.Stdout) :
    (Method.invokeAll ms self out).1 = self := by
  induction ms generalizing out with
  | nil => rfl
  | cons m rest ih =>
    cases m <;> simp [Method.invokeAll, Method.invoke, vls.Car.drive, vls.Car.get_name, ih]

theorem get_name_times_eq (k : Nat) (self : vls.Car) (out : vls.Stdout) :
    get_name_times k self out = (self, out) := by
  induction k with
  | zero => rfl
  | succ k ih => simp [get_name_times, vls.Car.get_name, ih]

theorem append_ne_self (out s : String) (h : 0 < s.length) : out ++ s ≠ out := by
  intro e
  have := congrArg String.length e
  simp at this
  omega

theorem invokeAt_frame (m : Method) (a : Nat) (car : vls.Car) (w : World)
    (ha : w.heap[a]? = some (some car)) :
    ∃ w1 : World, m.invokeAt (some a) w = some w1
      ∧ w1.heap[a]? = some (some car)
      ∧ ∀ b : Nat, b ≠ a → w1.heap[b]? = w.heap[b]? := by
  have hlt : a < w.heap.length := by
    rcases Nat.lt_or_ge a w.heap.length with h | h
    · exact h
    · rw [List.getElem?_eq_none h] at ha
      cases ha
  cases m
  · refine ⟨{ heap := w.heap.set a (some car), out := w.out ++ "vroooom\n" }, ?_, ?_, ?_⟩
    · simp [Method.invokeAt, unique_ptr.call, unique_ptr.deref, ha, vls.Car.drive]
    · simp [hlt]
    · intro b hb
      simp [List.getElem?_set_ne (Ne.symm hb)]
  · refine ⟨{ heap := w.heap.set a (some car), out := w.out }, ?_, ?_, ?_⟩
    · simp [Method.invokeAt, unique_ptr.call, unique_ptr.deref, ha, vls.Car.get_name]
    · simp [hlt]
    · intro b hb
      simp [List.getElem?_set_ne (Ne.symm hb)]

theorem invokeTwo_frame (calls : List (Bool × Method)) (i j : Nat) (hij : i ≠ j)
    (ca cb : vls.Car) (w : World)
    (hi : w.heap[i]? = some (some ca)) (hj : w.heap[j]? = some (some cb)) :
    ∃ w1 : World, Method.invokeTwo calls (some i) (some j) w = some w1
      ∧ w1.heap[i]? = some (some ca) ∧ w1.heap[j]? = some (some cb) := by
  induction calls generalizing w with
  | nil => exact ⟨w, rfl, hi, hj⟩
  | cons c rest ih =>
    obtain ⟨onFirst, m⟩ := c
    cases onFirst
    · obtain ⟨w1, h1, h2, h3⟩ := invokeAt_frame m j cb w hj
      obtain ⟨w2, k1, k2, k3⟩ := ih w1 (by rw [h3 i hij]; exact hi) h2
      exact ⟨w2, by simp [Method.invokeTwo, h1, k1], k2, k3⟩
    · obtain ⟨w1, h1, h2, h3⟩ := invokeAt_frame m i ca w hi
      obtain ⟨w2, k1, k2, k3⟩ := ih w1 h2 (by rw [h3 j (Ne.symm hij)]; exact hj)
      exact ⟨w2, by simp [Method.invokeTwo, h1, k1], k2, k3⟩

theorem call_get_name_fst (a : Nat) (car : vls.Car) (w : World)
    (ha : w.heap[a]? = some (some car)) :
    (unique_ptr.call (some a) vls.Car.get_name w).map (fun r => r.1) = some car.name := by
  simp [unique_ptr.call, unique_ptr.deref, ha, vls.Car.get_name]

theorem two_make_unique (a b : String) (w : World) :
    (make_unique a w).1 = some w.heap.length
    ∧ (make_unique b (make_unique a w).2).1 = some (w.heap.length + 1)
    ∧ (make_unique b (make_unique a w).2).2.heap[w.heap.length]? = some (some { name := a })
    ∧ (make_unique b (make_unique a w).2).2.heap[w.heap.length + 1]? = some (some { name := b }) := by
  refine ⟨rfl, ?_, ?_, ?_⟩
  · simp [make_unique]
  · have h := (heap_get_two w.heap (some { name := a }) (some { name := b })).1
    simpa [make_unique, vls.Car.Car] using h
  · have h := (heap_get_two w.heap (some { name := a }) (some { name := b })).2
    simpa [make_unique, vls.Car.Car] using h

/-! ## The claims -/

/-- C1: for every text `n`, constructing a `Car` with name `n` and then calling
`get_name` on it returns exactly `n`; in particular `"Honda"` gives `"Honda"`
and the empty name gives the empty text. -/
theorem C1_get_name_after_construct :
    (∀ (n : String) (out : vls.Stdout),
      (vls.Car.get_name (vls.Car.Car n out).1 (vls.Car.Car n out).2).1 = n)
    ∧ (∀ out : vls.Stdout,
      (vls.Car.get_name (vls.Car.Car "Honda" out).1 (vls.Car.Car "Honda" out).2).1 = "Honda")
    ∧ (∀ out : vls.Stdout,
      (vls.Car.get_name (vls.Car.Car "" out).1 (vls.Car.Car "" out).2).1 = "") :=
  ⟨fun _ _ => rfl, fun _ => rfl, fun _ => rfl⟩

/-- C2: for every constructed `Car`, whatever its name, `drive()` appends
exactly `vroooom` followed by one newline to standard output, and what it
appends is the same for every name. -/
theorem C2_drive_output (n : String) (out0 out : vls.Stdout) :
    (vls.Car.drive (vls.Car.Car n out0).1 out).2.2 = out ++ "vroooom" ++ "\n"
    ∧ ∀ m : String, (vls.Car.drive (vls.Car.Car m out0).1 out).2.2
        = (vls.Car.drive (vls.Car.Car n out0).1 out).2.2 := by
  refine ⟨?_, fun m => rfl⟩
  simp only [vls.Car.drive, String.append_assoc]
  rfl

/-- C3: for every argument list, `main` run from program start terminates with
exit code 0 and standard output exactly `Honda\n`, in which `vroooom` does not
occur; run after any earlier output it appends exactly `Honda\n` to it. -/
theorem C3_main_output (argc : Int) (argv : List String) :
    (∃ w : World, hello.main argc argv World.start = some (0, w)
        ∧ w.out = "Honda\n" ∧ ¬ occursIn "vroooom" w.out)
    ∧ ∀ w0 : World, ∃ w : World, hello.main argc argv w0 = some (0, w)
        ∧ w.out = w0.out ++ "Honda\n" := by
  constructor
  · refine ⟨_, main_eq argc argv World.start, by decide, by decide⟩
  · intro w0
    refine ⟨_, main_eq argc argv w0, ?_⟩
    simp only [String.append_assoc]
    rfl

/-- C4: for every `Car` constructed with name `n`, wherever it lives among the
objects of the program, `print_name` applied to the pointer that owns it
returns, appends to standard output exactly `n` followed by one line break,
and deletes that `Car` and no other object. -/
theorem C4_print_name_output (n : String) (out0 : vls.Stdout) (a : Nat) (w : World)
    (h : w.heap[a]? = some (some (vls.Car.Car n out0).1)) :
    hello.print_name (some a) w
      = some { heap := w.heap.set a none, out := w.out ++ n ++ "\n" } :=
  print_name_live a (vls.Car.Car n out0).1 w h

/-- Witness of C4: with `Honda` at address 0 and `Toyota` at address 1,
`print_name` on the pointer to address 0 prints `Honda` and a line break and
deletes the object at address 0 only. -/
theorem C4_print_name_output_witness :
    (World.mk [some { name := "Honda" }, some { name := "Toyota" }] "").heap[0]?
        = some (some (vls.Car.Car "Honda" "").1)
    ∧ hello.print_name (some 0)
        (World.mk [some { name := "Honda" }, some { name := "Toyota" }] "")
        = some (World.mk [none, some { name := "Toyota" }] "Honda\n") :=
  ⟨by decide,
   C4_print_name_output "Honda" "" 0
    (World.mk [some { name := "Honda" }, some { name := "Toyota" }] "") (by decide)⟩

/-- C5: the name of a `Car` is immutable after construction: for every `Car`
constructed with name `n` and every finite sequence of calls to `drive` and
`get_name`, the object (its stored name) is unchanged and a subsequent
`get_name` still returns `n`. -/
theorem C5_name_immutable (n : String) (out0 out : vls.Stdout) (ms : List Method) :
    (Method.invokeAll ms (vls.Car.Car n out0).1 out).1 = (vls.Car.Car n out0).1
    ∧ (Method.invokeAll ms (vls.Car.Car n out0).1 out).1.name = n
    ∧ (vls.Car.get_name (Method.invokeAll ms (vls.Car.Car n out0).1 out).1
        (Method.invokeAll ms (vls.Car.Car n out0).1 out).2).1 = n := by
  refine ⟨invokeAll_fst _ _ _, ?_, ?_⟩
  · rw [invokeAll_fst]
    rfl
  · simp only [vls.Car.get_name]
    rw [invokeAll_fst]
    rfl

/-- C6: two independently constructed `Car` instances share no state: for all
names `a` and `b`, after constructing one `Car` with `a` and another with `b`,
in either order, and any sequence of calls on either of them, every call
succeeds, `get_name` on the first returns `a` and `get_name` on the second
returns `b`. -/
theorem C6_independent_instances (a b : String) (w : World) (calls : List (Bool × Method)) :
    (∃ w1 : World,
      Method.invokeTwo calls (make_unique a w).1 (make_unique b (make_unique a w).2).1
          (make_unique b (make_unique a w).2).2 = some w1
      ∧ ((make_unique a w).1.call vls.Car.get_name w1).map (fun r => r.1) = some a
      ∧ ((make_unique b (make_unique a w).2).1.call vls.Car.get_name w1).map (fun r => r.1)
          = some b)
    ∧ (∃ w1 : World,
      Method.invokeTwo calls (make_unique a (make_unique b w).2).1 (make_unique b w).1
          (make_unique a (make_unique b w).2).2 = some w1
      ∧ ((make_unique a (make_unique b w).2).1.call vls.Car.get_name w1).map (fun r => r.1)
          = some a
      ∧ ((make_unique b w).1.call vls.Car.get_name w1).map (fun r => r.1) = some b) := by
  constructor
  · obtain ⟨e1, e2, h1, h2⟩ := two_make_unique a b w
    rw [e1, e2]
    obtain ⟨w1, k, k1, k2⟩ := invokeTwo_frame calls w.heap.length (w.heap.length + 1)
      (by omega) _ _ _ h1 h2
    exact ⟨w1, k, call_get_name_fst _ _ _ k1, call_get_name_fst _ _ _ k2⟩
  · obtain ⟨e1, e2, h1, h2⟩ := two_make_unique b a w
    rw [e1, e2]
    obtain ⟨w1, k, k1, k2⟩ := invokeTwo_frame calls (w.heap.length + 1) w.heap.length
      (by omega) _ _ _ h2 h1
    exact ⟨w1, k, call_get_name_fst _ _ _ k1, call_get_name_fst _ _ _ k2⟩

/-- C8: construction and the name accessor are silent: for every name `n`,
constructing a `Car` (directly or with `make_unique`) and calling `get_name`
any number of times leaves standard output as it was, whereas `drive` and
`print_name` each change it. -/
theorem C8_construct_get_name_silent (n : String) (out : vls.Stdout) (k : Nat) (w : World) :
    (vls.Car.Car n out).2 = out
    ∧ (make_unique n w).2.out = w.out
    ∧ (get_name_times k (vls.Car.Car n out).1 (vls.Car.Car n out).2).2 = out
    ∧ (vls.Car.drive (vls.Car.Car n out).1 (vls.Car.Car n out).2).2.2 ≠ out
    ∧ (∃ w1 : World, hello.print_name (make_unique n w).1 (make_unique n w).2 = some w1
        ∧ w1.out ≠ w.out) := by
  refine ⟨rfl, make_unique_out n w, ?_, ?_, ?_⟩
  · rw [get_name_times_eq]
    rfl
  · exact append_ne_self out "vroooom\n" (by decide)
  · refine ⟨_, print_name_make_unique n w, ?_⟩
    show w.out ++ n ++ "\n" ≠ w.out
    rw [String.append_assoc]
    refine append_ne_self w.out (n ++ "\n") ?_
    rw [String.length_append]
    have : ("\n" : String).length = 1 := by decide
    omega

